import Mathlib

/-!
# Screen: input routing and window stacking (`screen.go`)

A shallow embedding of the `Screen` controller of `screen.go`.

* Widgets are identified by natural numbers; a nil `Widget` is `none`.
* The widget tree that `Screen` queries (`Parent`, `Focused`, `Contains`, `AbsolutePosition`,
  `FindWidget`, the handlers' boolean results) lives outside `screen.go` and is the
  parameter `Tree`.
* Every notification that `Screen` sends to a widget is appended to `Screen.log`.
* Go panics (a failed unchecked type assertion, a method call on a nil interface) are the
  outcome `Run.panicked`, carrying the state at the moment of the panic; recursion is
  bounded by a fuel argument and `Run.outOfFuel` means that the fuel did not suffice.
* `lastInteraction` (a float32 clock reading) is written but never read by the modelled
  functions and is left out.
-/

namespace Gui4go

/-! ## Data model -/

/-- Dynamic type of a widget, as far as the type assertions of `screen.go` tell them apart:
the `*Screen` itself, a `*Window` with its modal flag, a `*Popup` with its `ParentWindow()`,
or any other widget. -/
inductive Kind where
  | screen
  | window (modal : Bool)
  | popup (parentWindow : Nat)
  | other
  deriving DecidableEq, Repr

/-- Values of `glfw.Action`. -/
inductive Action where
  | release
  | press
  | repeat
  deriving DecidableEq, Repr

/-- A call of a widget method made by `Screen`; the first field is the receiver. -/
inductive Notification where
  | focusEvent (w : Nat) (focused : Bool)
  | keyboardCharacterEvent (w : Nat) (codePoint : Nat)
  | mouseDragEvent (w : Nat) (x y rx ry : Int) (button modifiers : Nat)
  | mouseMotionEvent (w : Nat) (x y rx ry : Int) (button modifiers : Nat)
  | mouseButtonEvent (w : Nat) (x y : Int) (button : Nat) (down : Bool) (modifiers : Nat)
  | scrollEvent (w : Nat) (x y rx ry : Int)
  deriving DecidableEq, Repr

/-- Outcome of running a Go function on a state of type `σ`. -/
inductive Run (σ : Type) (α : Type) where
  | done (a : α) (s : σ)
  | panicked (s : σ)
  | outOfFuel
  deriving DecidableEq, Repr

/-- The state in which a run stopped, whether it returned or panicked. -/
def Run.state? {σ α : Type} : Run σ α → Option σ
  | .done _ s => some s
  | .panicked s => some s
  | .outOfFuel => none

/-- The widget tree as `Screen` sees it during one call. `root` is the `Screen` itself,
`handles n` is the boolean returned by the widget method call `n`. -/
structure Tree where
  root : Nat
  kind : Nat → Kind
  parent : Nat → Option Nat
  focused : Nat → Bool
  contains : Nat → Int → Int → Bool
  absolutePosition : Nat → Int × Int
  findWidget : Int → Int → Option Nat
  handles : Notification → Bool

/-- The fields of `Screen` that the routing functions read or write. `mouseState` is the
64-bit pattern of the Go `int`. -/
structure Screen where
  children : List Nat
  focusPath : List Nat
  modifiers : Nat
  mouseState : Nat
  mousePosX : Int
  mousePosY : Int
  dragActive : Bool
  dragWidget : Option Nat
  log : List Notification
  deriving DecidableEq, Repr

/-- Go `int` subtraction on a 64-bit platform (wraps around). -/
def sub64 (a b : Int) : Int :=
  (a - b + 2 ^ 63) % 2 ^ 64 - 2 ^ 63

/-! ## MoveWindowToFront -/

/-- Modelled from the spec: `RemoveChild` of the embedded widget is not part of `screen.go`;
it removes the window from the children ordering (its first occurrence). -/
def RemoveChild (children : List Nat) (window : Nat) : List Nat :=
  children.erase window

/-- First loop of `MoveWindowToFront`: `baseIndex` after scanning the rest of the children
from index `i`. -/
def baseIndexFrom (window : Nat) : Nat → Nat → List Nat → Nat
  | _, base, [] => base
  | i, base, child :: rest =>
    baseIndexFrom window (i + 1) (if child = window then i else base) rest

/-- Index of the last child equal to `window`, `0` when there is none. -/
def baseIndex (children : List Nat) (window : Nat) : Nat :=
  baseIndexFrom window 0 0 children

/-- Result of the second loop of `MoveWindowToFront`. -/
inductive Scan where
  | panic
  | found (pw : Nat)
  | nothing
  deriving DecidableEq, Repr

/-- Second loop of `MoveWindowToFront` from index `i`: `child.(*Popup)` is unchecked and
panics on a child that is not a `*Popup`; the first popup anchored on `window` that sits
before `base` is reported. -/
def scan (kind : Nat → Kind) (window base : Nat) : Nat → List Nat → Scan
  | _, [] => .nothing
  | i, child :: rest =>
    match kind child with
    | .popup pwin =>
      if pwin = window ∧ i < base then .found child else scan kind window base (i + 1) rest
    | _ => .panic

/-- The `for changed` loop of `MoveWindowToFront(window)`; the recursive call
`s.MoveWindowToFront(pw)` is inlined as its two moves followed by its own loop. -/
def promoteLoop (kind : Nat → Kind) : Nat → List Nat → Nat → Run (List Nat) Unit
  | 0, _, _ => .outOfFuel
  | fuel + 1, children, window =>
    match scan kind window (baseIndex children window) 0 children with
    | .nothing => .done () children
    | .panic => .panicked children
    | .found pw =>
      match promoteLoop kind fuel (RemoveChild children pw ++ [pw]) pw with
      | .done _ children1 => promoteLoop kind fuel children1 window
      | r => r

/-- Embedding of `Screen.MoveWindowToFront` on the children ordering. -/
def MoveWindowToFront (kind : Nat → Kind) (fuel : Nat) (children : List Nat) (window : Nat) :
    Run (List Nat) Unit :=
  promoteLoop kind fuel (RemoveChild children window ++ [window]) window

/-! ## UpdateFocus and DisposeWindow -/

/-- First loop of `UpdateFocus`: `FocusEvent(false)` goes to the entries of the focus path
for which `Focused()` is false. -/
def notifyLost (t : Tree) : List Nat → List Notification
  | [] => []
  | w :: rest =>
    if !t.focused w then .focusEvent w false :: notifyLost t rest else notifyLost t rest

/-- The `for widget != nil` loop of `UpdateFocus`: the widget is appended to the path, then
`widget.(*Window)` (unchecked) is stored in `window`, then the parent is taken. The state of
the run is the path built so far, its value is `window`. -/
def focusWalk (t : Tree) : Nat → Option Nat → List Nat → Option Nat →
    Run (List Nat) (Option Nat)
  | _, none, path, window => .done window path
  | 0, some _, _, _ => .outOfFuel
  | fuel + 1, some w, path, _ =>
    match t.kind w with
    | .window _ => focusWalk t fuel (t.parent w) (path ++ [w]) (some w)
    | _ => .panicked (path ++ [w])

/-- Embedding of `Screen.UpdateFocus`. -/
def UpdateFocus (t : Tree) (fuel : Nat) (s : Screen) (widget : Option Nat) :
    Run Screen Unit :=
  let s1 := { s with log := s.log ++ notifyLost t s.focusPath, focusPath := [] }
  match focusWalk t fuel widget [] none with
  | .outOfFuel => .outOfFuel
  | .panicked path => .panicked { s1 with focusPath := path }
  | .done window path =>
    let s2 := { s1 with focusPath := path,
                        log := s1.log ++ path.map (fun w => Notification.focusEvent w true) }
    match window with
    | none => .done () s2
    | some win =>
      match MoveWindowToFront t.kind fuel s2.children win with
      | .done _ c => .done () { s2 with children := c }
      | .panicked c => .panicked { s2 with children := c }
      | .outOfFuel => .outOfFuel

/-- Embedding of `Screen.DisposeWindow`. -/
def DisposeWindow (s : Screen) (window : Nat) : Screen :=
  let find := s.focusPath.contains window
  let s1 := if find then { s with focusPath := [] } else s
  let s2 := if s1.dragWidget = some window then { s1 with dragWidget := none } else s1
  { s2 with children := RemoveChild s2.children window }

/-! ## Keyboard -/

/-- The loop of `KeyboardCharacterEvent` over the focus path. -/
def keyboardCharacterLoop (t : Tree) (codePoint : Nat) :
    List Nat → List Notification → Bool × List Notification
  | [], log => (false, log)
  | w :: rest, log =>
    if t.focused w then
      if t.handles (.keyboardCharacterEvent w codePoint) then
        (true, log ++ [.keyboardCharacterEvent w codePoint])
      else
        keyboardCharacterLoop t codePoint rest (log ++ [.keyboardCharacterEvent w codePoint])
    else keyboardCharacterLoop t codePoint rest log

/-- Embedding of `Screen.KeyboardCharacterEvent`. -/
def KeyboardCharacterEvent (t : Tree) (s : Screen) (codePoint : Nat) : Bool × Screen :=
  let r := keyboardCharacterLoop t codePoint s.focusPath s.log
  (r.1, { s with log := r.2 })

/-- Embedding of `Screen.charCallbackEvent`: after recording the interaction time it calls
`s.charCallbackEvent(codePoint)`, that is, itself. -/
def charCallbackEvent (t : Tree) : Nat → Screen → Nat → Run Screen Bool
  | 0, _, _ => .outOfFuel
  | fuel + 1, s, codePoint => charCallbackEvent t fuel s codePoint

/-! ## Pointer -/

/-- The guard shared by `mouseButtonCallbackEvent` and `scrollCallbackEvent`: the focus path
has more than one entry, `focusPath[len-2].(*Window)` succeeds, the window is modal and does
not contain the stored pointer position. -/
def modalDrop (t : Tree) (s : Screen) : Bool :=
  if 1 < s.focusPath.length then
    match s.focusPath[s.focusPath.length - 2]? with
    | some w =>
      match t.kind w with
      | .window modal => modal && !t.contains w s.mousePosX s.mousePosY
      | _ => false
    | none => false
  else false

/-- New value of `mouseState`: `|= 1 << uint(button)` on a press, `&= ^(1 << uint(button))`
otherwise, on the 64-bit pattern (a shift by 64 or more gives `0`, `^` is the exclusive or
with all ones). -/
def updateMouseState (mouseState button : Nat) (action : Action) : Nat :=
  if action = .press then mouseState ||| (1 <<< button) % 2 ^ 64
  else mouseState &&& ((2 ^ 64 - 1) ^^^ (1 <<< button) % 2 ^ 64)

/-- The release that `mouseButtonCallbackEvent` sends to the drag target when the drag ends
over another widget; `s.dragWidget.Parent().AbsolutePosition()` panics on a nil interface. -/
def synthesizeRelease (t : Tree) (s : Screen) (button : Nat) (action : Action)
    (modifiers : Nat) : Run Screen Unit :=
  if s.dragActive ∧ action = .release ∧
      t.findWidget s.mousePosX s.mousePosY ≠ s.dragWidget then
    match s.dragWidget with
    | none => .panicked s
    | some d =>
      match t.parent d with
      | none => .panicked s
      | some p =>
        .done () { s with log := s.log ++
          [.mouseButtonEvent d (sub64 s.mousePosX (t.absolutePosition p).1)
            (sub64 s.mousePosY (t.absolutePosition p).2) button false modifiers] }
  else .done () s

/-- The drag target chosen on a primary press: the widget under the cursor unless it is the
screen itself. -/
def dragTarget (t : Tree) (s : Screen) : Option Nat :=
  match t.findWidget s.mousePosX s.mousePosY with
  | some w => if w = t.root then none else some w
  | none => none

/-- The part of `mouseButtonCallbackEvent` from the update of `mouseState` up to, and not
including, the final `s.MouseButtonEvent(...)`. `MouseButton1` is button `0`. -/
def mouseButtonBeforeDispatch (t : Tree) (fuel : Nat) (s : Screen) (button : Nat)
    (action : Action) (modifiers : Nat) : Run Screen Unit :=
  let s1 := { s with mouseState := updateMouseState s.mouseState button action }
  match synthesizeRelease t s1 button action modifiers with
  | .done _ s2 =>
    if action = .press ∧ button = 0 then
      let s3 := { s2 with dragWidget := dragTarget t s2,
                          dragActive := (dragTarget t s2).isSome }
      if s3.dragActive then UpdateFocus t fuel s3 none else .done () s3
    else .done () { s2 with dragActive := false, dragWidget := none }
  | r => r

/-- The final `s.MouseButtonEvent(...)` of `mouseButtonCallbackEvent`. -/
def dispatchMouseButton (t : Tree) (s : Screen) (button : Nat) (action : Action)
    (modifiers : Nat) : Run Screen Bool :=
  .done (t.handles (.mouseButtonEvent t.root s.mousePosX s.mousePosY button
      (decide (action = .press)) modifiers))
    { s with log := s.log ++ [.mouseButtonEvent t.root s.mousePosX s.mousePosY button
      (decide (action = .press)) modifiers] }

/-- Embedding of `Screen.mouseButtonCallbackEvent`; `button` is the value of `uint(button)`. -/
def mouseButtonCallbackEvent (t : Tree) (fuel : Nat) (s : Screen) (button : Nat)
    (action : Action) (modifiers : Nat) : Run Screen Bool :=
  let s0 := { s with modifiers := modifiers }
  if modalDrop t s0 then .done false s0
  else
    match mouseButtonBeforeDispatch t fuel s0 button action modifiers with
    | .done _ s4 => dispatchMouseButton t s4 button action modifiers
    | .panicked s4 => .panicked s4
    | .outOfFuel => .outOfFuel

/-- Embedding of `Screen.scrollCallbackEvent`; `x` and `y` are the values of `int(x)` and `int(y)`. -/
def scrollCallbackEvent (t : Tree) (s : Screen) (x y : Int) : Run Screen Bool :=
  if modalDrop t s then .done false s
  else
    .done (t.handles (.scrollEvent t.root s.mousePosX s.mousePosY x y))
      { s with log := s.log ++ [.scrollEvent t.root s.mousePosX s.mousePosY x y] }

/-- The drag branch of `cursorPositionCallbackEvent`: with no drag active the hit test has
no effect and `ret` stays false; otherwise the drag target receives `MouseDragEvent`
(a nil drag target panics). -/
def deliverDrag (t : Tree) (s : Screen) (px py : Int) : Run Screen Bool :=
  if !s.dragActive then .done false s
  else
    match s.dragWidget with
    | none => .panicked s
    | some d =>
      .done (t.handles (.mouseDragEvent d (sub64 px (t.absolutePosition d).1)
          (sub64 py (t.absolutePosition d).2) (sub64 px s.mousePosX) (sub64 py s.mousePosY)
          s.mouseState s.modifiers))
        { s with log := s.log ++ [.mouseDragEvent d (sub64 px (t.absolutePosition d).1)
          (sub64 py (t.absolutePosition d).2) (sub64 px s.mousePosX) (sub64 py s.mousePosY)
          s.mouseState s.modifiers] }

/-- Embedding of `Screen.cursorPositionCallbackEvent`; `x` and `y` are the values of `int(x)` and
`int(y)`. -/
def cursorPositionCallbackEvent (t : Tree) (s : Screen) (x y : Int) : Run Screen Bool :=
  match deliverDrag t s (sub64 x 1) (sub64 y 2) with
  | .done ret s1 =>
    if !ret then
      .done (t.handles (.mouseMotionEvent t.root (sub64 x 1) (sub64 y 2)
          (sub64 (sub64 x 1) s1.mousePosX) (sub64 (sub64 y 2) s1.mousePosY)
          s1.mouseState s1.modifiers))
        { s1 with
          mousePosX := sub64 x 1
          mousePosY := sub64 y 2
          log := s1.log ++ [.mouseMotionEvent t.root (sub64 x 1) (sub64 y 2)
            (sub64 (sub64 x 1) s1.mousePosX) (sub64 (sub64 y 2) s1.mousePosY)
            s1.mouseState s1.modifiers] }
    else .done ret { s1 with mousePosX := sub64 x 1, mousePosY := sub64 y 2 }
  | r => r

/-! ## Popup anchors -/

/-- Widget `p` is a `*Popup` whose `ParentWindow()` is `w`. -/
def Anchored (kind : Nat → Kind) (p w : Nat) : Prop :=
  kind p = .popup w

/-- Following `ParentWindow()` from a popup, one or more times, never leads back to it. -/
def Acyclic (kind : Nat → Kind) : Prop :=
  ∀ p, ¬ Relation.TransGen (Anchored kind) p p

/-- No chain of popups of `children`, each anchored on the one before and the first on
`window`, is longer than `n`. -/
def HeightLE (kind : Nat → Kind) (n : Nat) (window : Nat) (children : List Nat) : Prop :=
  ∀ ch : List Nat, List.Chain (fun a b => Anchored kind b a) window ch →
    (∀ x ∈ ch, x ∈ children) → ch.length ≤ n

/-! ## Sequences of button events, invariants and chains -/

/-- One `mouseButtonCallbackEvent` together with the configuration in force when it arrives:
the widget tree and every field of the screen except `mouseState`, which is carried over
from the previous event. -/
structure ButtonEvent where
  tree : Tree
  config : Screen
  fuel : Nat
  button : Nat
  action : Action
  modifiers : Nat

/-- The `mouseState` after a sequence of `mouseButtonCallbackEvent` calls. -/
def mouseStateAfter : Nat → List ButtonEvent → Nat
  | ms, [] => ms
  | ms, e :: rest =>
    match (mouseButtonCallbackEvent e.tree e.fuel { e.config with mouseState := ms }
        e.button e.action e.modifiers).state? with
    | some s1 => mouseStateAfter s1.mouseState rest
    | none => mouseStateAfter ms rest

/-- Whether the last event for button `b` in the sequence was a press (`held` before it). -/
def lastPress (b : Nat) : Bool → List ButtonEvent → Bool
  | held, [] => held
  | held, e :: rest =>
    lastPress b (if e.button = b then decide (e.action = .press) else held) rest

/-- Whether the last event for button `b` that the modal rule did not drop was a press. -/
def heldAfter (b : Nat) : Bool → List ButtonEvent → Bool
  | held, [] => held
  | held, e :: rest =>
    heldAfter b
      (if modalDrop e.tree { e.config with modifiers := e.modifiers } then held
       else if e.button = b then decide (e.action = .press) else held) rest

/-- The drag invariant `dragActive == (dragWidget != nil)`. -/
def dragInvariant (s : Screen) : Prop :=
  s.dragActive = s.dragWidget.isSome

/-! ## Example configurations -/

/-- A widget tree: the screen `0`, a modal window `1` holding the button `2`, a plain window
`3`, and a popup `4` anchored on `3`. Window `1` covers the square `[0,10) × [0,10)`. -/
def exampleTree : Tree where
  root := 0
  kind := fun w =>
    if w = 0 then .screen else if w = 1 then .window true else if w = 3 then .window false
    else if w = 4 then .popup 3 else .other
  parent := fun w => if w = 0 then none else if w = 2 then some 1 else some 0
  focused := fun w => decide (w = 2)
  contains := fun _ x y => decide (0 ≤ x ∧ x < 10 ∧ 0 ≤ y ∧ y < 10)
  absolutePosition := fun w => if w = 0 then (0, 0) else (3, 4)
  findWidget := fun x y =>
    if 0 ≤ x ∧ x < 10 ∧ 0 ≤ y ∧ y < 10 then some 2 else if x < 0 then none else some 0
  handles := fun _ => false

/-- A screen over `exampleTree` with the focus on the button `2` and the pointer outside
window `1`. -/
def exampleScreen : Screen where
  children := [1, 3, 4]
  focusPath := [2, 1, 0]
  modifiers := 0
  mouseState := 0
  mousePosX := 50
  mousePosY := 50
  dragActive := false
  dragWidget := none
  log := []

/-- The example screen while window `1` is being dragged. -/
def draggingScreen : Screen :=
  { exampleScreen with focusPath := [], mousePosX := 5, mousePosY := 5, dragActive := true,
                       dragWidget := some 1 }

/-- The example screen with the focus on the plain window `3` and the pointer over the
button `2`. -/
def idleScreen : Screen :=
  { exampleScreen with focusPath := [3, 0], mousePosX := 5, mousePosY := 5 }

/-- Dynamic types for a z-order example: the windows `1` (W) and `9`, and the popups
`2`, `3`, ... with `n + 1` anchored on `n`. -/
def chainKind : Nat → Kind := fun n =>
  if n = 1 ∨ n = 9 then .window false else .popup (n - 1)

/-- Dynamic types in which every widget `n` is a popup anchored on `n + 1`. -/
def popupKind : Nat → Kind := fun n => .popup (n + 1)

/-- A press of button `0` that arrives while the modal window `1` has the focus and the
pointer is outside it. -/
def droppedPress : ButtonEvent :=
  { tree := exampleTree, config := exampleScreen, fuel := 0, button := 0, action := .press,
    modifiers := 0 }

/-- A press of button `0` that arrives while the plain window `3` has the focus. -/
def plainPress : ButtonEvent :=
  { tree := exampleTree, config := idleScreen, fuel := 0, button := 0, action := .press,
    modifiers := 0 }

/-! ## Lemmas on `baseIndex` and `scan` -/

theorem baseIndexFrom_not_mem (w : Nat) (l : List Nat) (h : w ∉ l) (i base : Nat) :
    baseIndexFrom w i base l = base := by
  induction l generalizing i base with
  | nil => rfl
  | cons x l ih =>
    have hx : x ≠ w := fun e => h (by simp [e])
    have hl : w ∉ l := fun e => h (List.mem_cons_of_mem _ e)
    simp [baseIndexFrom, hx, ih hl]

theorem baseIndexFrom_split (w : Nat) (a b : List Nat) (h : w ∉ b) (i base : Nat) :
    baseIndexFrom w i base (a ++ w :: b) = i + a.length := by
  induction a generalizing i base with
  | nil => simp [baseIndexFrom, baseIndexFrom_not_mem w b h]
  | cons x a ih =>
    rw [List.cons_append, baseIndexFrom, ih, List.length_cons]
    omega

theorem baseIndex_split (w : Nat) (a b : List Nat) (h : w ∉ b) :
    baseIndex (a ++ w :: b) w = a.length := by
  simp [baseIndex, baseIndexFrom_split w a b h]

theorem exists_last_split (w : Nat) (l : List Nat) (h : w ∈ l) :
    ∃ a b, l = a ++ w :: b ∧ w ∉ b := by
  induction l with
  | nil => simp at h
  | cons x l ih =>
    by_cases hl : w ∈ l
    · obtain ⟨a, b, e, hb⟩ := ih hl
      exact ⟨x :: a, b, by simp [e], hb⟩
    · have hx : w = x := by
        rcases List.mem_cons.1 h with e | e
        · exact e
        · exact absurd e hl
      exact ⟨[], l, by simp [hx], hl⟩

/-- Moving another widget to the end never pushes the last `w` further back, and pulls it
forward when the moved widget sat before it. -/
theorem baseIndex_move (w x : Nat) (c : List Nat) (hw : w ∈ c) (hx : x ≠ w) :
    w ∈ RemoveChild c x ++ [x] ∧
    baseIndex (RemoveChild c x ++ [x]) w ≤ baseIndex c w ∧
    (x ∈ c.take (baseIndex c w) → baseIndex (RemoveChild c x ++ [x]) w < baseIndex c w) := by
  obtain ⟨a, b, e, hb⟩ := exists_last_split w c hw
  subst e
  have hbase : baseIndex (a ++ w :: b) w = a.length := baseIndex_split w a b hb
  have hwx : ¬ (w == x) = true := by simpa using fun e : w = x => hx e.symm
  by_cases hxa : x ∈ a
  · have e1 : RemoveChild (a ++ w :: b) x ++ [x] = a.erase x ++ w :: (b ++ [x]) := by
      simp [RemoveChild, List.erase_append_left _ hxa]
    have hb1 : w ∉ b ++ [x] := by
      simp only [List.mem_append, List.mem_singleton, not_or]
      exact ⟨hb, fun e => hx e.symm⟩
    have hlen : (a.erase x).length < a.length := by
      rw [List.length_erase_of_mem hxa]
      have : 0 < a.length := List.length_pos_of_mem hxa
      omega
    rw [e1, hbase, baseIndex_split w _ _ hb1]
    exact ⟨by simp, le_of_lt hlen, fun _ => hlen⟩
  · have e1 : RemoveChild (a ++ w :: b) x ++ [x] = a ++ w :: (b.erase x ++ [x]) := by
      simp [RemoveChild, List.erase_append_right _ hxa, List.erase_cons_tail hwx]
    have hb1 : w ∉ b.erase x ++ [x] := by
      simp only [List.mem_append, List.mem_singleton, not_or]
      exact ⟨fun e => hb (List.mem_of_mem_erase e), fun e => hx e.symm⟩
    rw [e1, hbase, baseIndex_split w _ _ hb1]
    refine ⟨by simp, le_refl _, fun h => ?_⟩
    rw [List.take_left] at h
    exact absurd h hxa

theorem scan_found (kind : Nat → Kind) (w base pw : Nat) (l : List Nat) (i : Nat)
    (h : scan kind w base i l = .found pw) :
    Anchored kind pw w ∧ pw ∈ l.take (base - i) := by
  induction l generalizing i with
  | nil => simp [scan] at h
  | cons x l ih =>
    rw [scan] at h
    cases hk : kind x with
    | popup pwin =>
      rw [hk] at h
      simp only at h
      by_cases hc : pwin = w ∧ i < base
      · rw [if_pos hc] at h
        injection h with h
        subst h
        refine ⟨by rw [Anchored, hk, hc.1], ?_⟩
        obtain ⟨n, hn⟩ : ∃ n, base - i = n + 1 := ⟨base - i - 1, by omega⟩
        rw [hn]
        simp
      · rw [if_neg hc] at h
        obtain ⟨h1, h2⟩ := ih (i + 1) h
        refine ⟨h1, ?_⟩
        have hpos : 0 < base - (i + 1) := by
          rcases Nat.eq_zero_or_pos (base - (i + 1)) with e | e
          · rw [e] at h2
            simp at h2
          · exact e
        obtain ⟨n, hn⟩ : ∃ n, base - i = n + 1 := ⟨base - i - 1, by omega⟩
        have hn2 : base - (i + 1) = n := by omega
        rw [hn, List.take_succ_cons]
        rw [hn2] at h2
        exact List.mem_cons_of_mem _ h2
    | screen => rw [hk] at h; simp at h
    | window m => rw [hk] at h; simp at h
    | other => rw [hk] at h; simp at h

/-! ## Lemmas on `promoteLoop` -/

theorem promoteLoop_nothing (kind : Nat → Kind) (f : Nat) (c : List Nat) (w : Nat)
    (h : scan kind w (baseIndex c w) 0 c = .nothing) :
    promoteLoop kind (f + 1) c w = .done () c := by
  rw [promoteLoop, h]

theorem promoteLoop_panic (kind : Nat → Kind) (f : Nat) (c : List Nat) (w : Nat)
    (h : scan kind w (baseIndex c w) 0 c = .panic) :
    promoteLoop kind (f + 1) c w = .panicked c := by
  rw [promoteLoop, h]

theorem promoteLoop_found_done (kind : Nat → Kind) (f : Nat) (c : List Nat) (w pw : Nat)
    (c1 : List Nat) (h : scan kind w (baseIndex c w) 0 c = .found pw)
    (h1 : promoteLoop kind f (RemoveChild c pw ++ [pw]) pw = .done () c1) :
    promoteLoop kind (f + 1) c w = promoteLoop kind f c1 w := by
  rw [promoteLoop, h]
  simp only [h1]

theorem promoteLoop_found_stop (kind : Nat → Kind) (f : Nat) (c : List Nat) (w pw : Nat)
    (h : scan kind w (baseIndex c w) 0 c = .found pw)
    (h1 : ∀ c1, promoteLoop kind f (RemoveChild c pw ++ [pw]) pw ≠ .done () c1) :
    promoteLoop kind (f + 1) c w = promoteLoop kind f (RemoveChild c pw ++ [pw]) pw := by
  rw [promoteLoop, h]
  cases hr : promoteLoop kind f (RemoveChild c pw ++ [pw]) pw with
  | done u c1 => exact absurd hr (h1 c1)
  | panicked c1 => simp only [hr]
  | outOfFuel => simp only [hr]

/-- More fuel does not change a run that stopped. -/
theorem promoteLoop_fuel_succ (kind : Nat → Kind) (f : Nat) (c : List Nat) (w : Nat)
    (h : promoteLoop kind f c w ≠ .outOfFuel) :
    promoteLoop kind (f + 1) c w = promoteLoop kind f c w := by
  induction f generalizing c w with
  | zero => exact absurd rfl h
  | succ f ih =>
    cases hs : scan kind w (baseIndex c w) 0 c with
    | nothing => rw [promoteLoop_nothing kind _ c w hs, promoteLoop_nothing kind _ c w hs]
    | panic => rw [promoteLoop_panic kind _ c w hs, promoteLoop_panic kind _ c w hs]
    | found pw =>
      cases hr : promoteLoop kind f (RemoveChild c pw ++ [pw]) pw with
      | done u c1 =>
        have e1 := promoteLoop_found_done kind f c w pw c1 hs hr
        have hr2 : promoteLoop kind (f + 1) (RemoveChild c pw ++ [pw]) pw = .done () c1 := by
          rw [ih _ _ (by rw [hr]; simp), hr]
        rw [promoteLoop_found_done kind (f + 1) c w pw c1 hs hr2, e1]
        exact ih _ _ (by rw [← e1]; exact h)
      | panicked c1 =>
        have hnd : ∀ c2, promoteLoop kind f (RemoveChild c pw ++ [pw]) pw ≠ .done () c2 := by
          intro c2; rw [hr]; simp
        have e1 := promoteLoop_found_stop kind f c w pw hs hnd
        have hr2 : promoteLoop kind (f + 1) (RemoveChild c pw ++ [pw]) pw = .panicked c1 := by
          rw [ih _ _ (by rw [hr]; simp), hr]
        have hnd2 : ∀ c2,
            promoteLoop kind (f + 1) (RemoveChild c pw ++ [pw]) pw ≠ .done () c2 := by
          intro c2; rw [hr2]; simp
        rw [promoteLoop_found_stop kind (f + 1) c w pw hs hnd2, e1, hr2, hr]
      | outOfFuel =>
        have hnd : ∀ c2, promoteLoop kind f (RemoveChild c pw ++ [pw]) pw ≠ .done () c2 := by
          intro c2; rw [hr]; simp
        have e1 := promoteLoop_found_stop kind f c w pw hs hnd
        rw [e1, hr] at h
        exact absurd rfl h

theorem promoteLoop_fuel_le (kind : Nat → Kind) (f g : Nat) (c : List Nat) (w : Nat)
    (hfg : f ≤ g) (h : promoteLoop kind f c w ≠ .outOfFuel) :
    promoteLoop kind g c w = promoteLoop kind f c w := by
  induction g with
  | zero =>
    have : f = 0 := by omega
    rw [this]
  | succ g ih =>
    by_cases e : f = g + 1
    · rw [e]
    · have h1 := ih (by omega)
      rw [promoteLoop_fuel_succ kind g c w (by rw [h1]; exact h), h1]

/-- A completed loop for `v` permutes the children and moves only popups anchored, directly
or through other popups, on `v`: the last occurrence of any other widget is not pushed
back. -/
theorem promoteLoop_done (kind : Nat → Kind) (f : Nat) (c : List Nat) (v : Nat)
    (c1 : List Nat) (h : promoteLoop kind f c v = .done () c1) :
    c1.Perm c ∧ ∀ w, w ∈ c → ¬ Relation.TransGen (Anchored kind) w v →
      baseIndex c1 w ≤ baseIndex c w := by
  induction f generalizing c v c1 with
  | zero => simp [promoteLoop] at h
  | succ f ih =>
    cases hs : scan kind v (baseIndex c v) 0 c with
    | nothing =>
      rw [promoteLoop_nothing kind _ c v hs] at h
      injection h with _ h
      subst h
      exact ⟨List.Perm.refl _, fun _ _ _ => le_refl _⟩
    | panic =>
      rw [promoteLoop_panic kind _ c v hs] at h
      simp at h
    | found pw =>
      obtain ⟨hanch, hmem⟩ := scan_found kind v _ pw c 0 hs
      have hpw : pw ∈ c := List.mem_of_mem_take hmem
      have hperm0 : (RemoveChild c pw ++ [pw]).Perm c :=
        (List.perm_append_singleton pw _).trans (List.perm_cons_erase hpw).symm
      cases hr : promoteLoop kind f (RemoveChild c pw ++ [pw]) pw with
      | done u c2 =>
        rw [promoteLoop_found_done kind f c v pw c2 hs hr] at h
        obtain ⟨hp1, hb1⟩ := ih _ _ _ hr
        obtain ⟨hp2, hb2⟩ := ih _ _ _ h
        refine ⟨hp2.trans (hp1.trans hperm0), fun w hw hnot => ?_⟩
        have hne : pw ≠ w := by
          intro e
          subst e
          exact hnot (Relation.TransGen.single hanch)
        have hnot1 : ¬ Relation.TransGen (Anchored kind) w pw :=
          fun e => hnot (Relation.TransGen.tail e hanch)
        obtain ⟨hw0, hle0, _⟩ := baseIndex_move w pw c hw hne
        have hw1 : w ∈ c2 := hp1.symm.subset hw0
        exact (hb2 w hw1 hnot).trans ((hb1 w hw0 hnot1).trans hle0)
      | panicked c2 =>
        have hnd : ∀ c3, promoteLoop kind f (RemoveChild c pw ++ [pw]) pw ≠ .done () c3 := by
          intro c3; rw [hr]; simp
        rw [promoteLoop_found_stop kind f c v pw hs hnd, hr] at h
        simp at h
      | outOfFuel =>
        have hnd : ∀ c3, promoteLoop kind f (RemoveChild c pw ++ [pw]) pw ≠ .done () c3 := by
          intro c3; rw [hr]; simp
        rw [promoteLoop_found_stop kind f c v pw hs hnd, hr] at h
        simp at h

/-! ## Termination of the promotion loop -/

theorem chain_descendants (kind : Nat → Kind) (v : Nat) (ch : List Nat)
    (h : List.Chain (fun a b => Anchored kind b a) v ch) :
    ∀ x ∈ ch, Relation.TransGen (Anchored kind) x v := by
  induction ch generalizing v with
  | nil => intro x hx; simp at hx
  | cons y ch ih =>
    rw [List.chain_cons] at h
    intro x hx
    rcases List.mem_cons.1 hx with e | e
    · rw [e]
      exact Relation.TransGen.single h.1
    · exact Relation.TransGen.tail (ih y h.2 x e) h.1

theorem chain_nodup (kind : Nat → Kind) (hac : Acyclic kind) (v : Nat) (ch : List Nat)
    (h : List.Chain (fun a b => Anchored kind b a) v ch) : ch.Nodup := by
  induction ch generalizing v with
  | nil => exact List.nodup_nil
  | cons y ch ih =>
    rw [List.chain_cons] at h
    rw [List.nodup_cons]
    exact ⟨fun hy => hac y (chain_descendants kind y ch h.2 y hy), ih y h.2⟩

theorem heightLE_of_acyclic (kind : Nat → Kind) (hac : Acyclic kind) (v : Nat)
    (c : List Nat) : HeightLE kind c.length v c := by
  intro ch hch hsub
  exact ((chain_nodup kind hac v ch hch).subperm hsub).length_le

theorem heightLE_of_perm (kind : Nat → Kind) (n v : Nat) (c c1 : List Nat)
    (hp : c1.Perm c) (h : HeightLE kind n v c) : HeightLE kind n v c1 :=
  fun ch hch hsub => h ch hch (fun x hx => hp.subset (hsub x hx))

/-- With an acyclic anchor relation the loop for `v` stops: the recursion depth is bounded
by the longest chain of popups below `v`, and each round of the loop pulls the last
occurrence of `v` forward. -/
theorem promoteLoop_stops (kind : Nat → Kind) (hac : Acyclic kind) (n : Nat) :
    ∀ (v : Nat) (c : List Nat), v ∈ c → HeightLE kind n v c →
      ∃ f, promoteLoop kind f c v ≠ .outOfFuel := by
  induction n with
  | zero =>
    intro v c _ hh
    refine ⟨1, ?_⟩
    cases hs : scan kind v (baseIndex c v) 0 c with
    | nothing => rw [promoteLoop_nothing kind _ c v hs]; simp
    | panic => rw [promoteLoop_panic kind _ c v hs]; simp
    | found pw =>
      obtain ⟨hanch, hmem⟩ := scan_found kind v _ pw c 0 hs
      have := hh [pw] (by simpa using hanch)
        (by intro x hx; rw [List.mem_singleton.1 hx]; exact List.mem_of_mem_take hmem)
      simp at this
  | succ n ihn =>
    intro v c
    generalize hm : baseIndex c v = m
    induction m using Nat.strong_induction_on generalizing c with
    | _ m ihm =>
      intro hv hh
      cases hs : scan kind v (baseIndex c v) 0 c with
      | nothing => exact ⟨1, by rw [promoteLoop_nothing kind _ c v hs]; simp⟩
      | panic => exact ⟨1, by rw [promoteLoop_panic kind _ c v hs]; simp⟩
      | found pw =>
        obtain ⟨hanch, hmem⟩ := scan_found kind v _ pw c 0 hs
        have hpw : pw ∈ c := List.mem_of_mem_take hmem
        have hperm0 : (RemoveChild c pw ++ [pw]).Perm c :=
          (List.perm_append_singleton pw _).trans (List.perm_cons_erase hpw).symm
        have hne : pw ≠ v := by
          intro e
          rw [e] at hanch
          exact hac v (Relation.TransGen.single hanch)
        have hh0 : HeightLE kind n pw (RemoveChild c pw ++ [pw]) := by
          intro ch hch hsub
          have := hh (pw :: ch) (List.Chain.cons hanch hch) (by
            intro x hx
            rcases List.mem_cons.1 hx with e | e
            · rw [e]; exact hpw
            · exact hperm0.subset (hsub x e))
          simpa using this
        obtain ⟨f1, hf1⟩ := ihn pw (RemoveChild c pw ++ [pw]) (by simp) hh0
        cases hr : promoteLoop kind f1 (RemoveChild c pw ++ [pw]) pw with
        | outOfFuel => exact absurd hr hf1
        | panicked c1 =>
          refine ⟨f1 + 1, ?_⟩
          rw [promoteLoop_found_stop kind f1 c v pw hs (by intro c3; rw [hr]; simp), hr]
          simp
        | done u c1 =>
          obtain ⟨hp1, hb1⟩ := promoteLoop_done kind f1 _ pw c1 hr
          obtain ⟨hv0, _, hlt0⟩ := baseIndex_move v pw c hv hne
          have hnot : ¬ Relation.TransGen (Anchored kind) v pw :=
            fun e => hac v (Relation.TransGen.tail e hanch)
          have hlt : baseIndex c1 v < m := by
            rw [← hm]
            exact lt_of_le_of_lt (hb1 v hv0 hnot) (hlt0 (by simpa using hmem))
          have hv1 : v ∈ c1 := hp1.symm.subset hv0
          obtain ⟨f2, hf2⟩ := ihm _ hlt c1 rfl hv1
            (heightLE_of_perm kind _ v c c1 (hp1.trans hperm0) hh)
          refine ⟨max f1 f2 + 1, ?_⟩
          have e1 : promoteLoop kind (max f1 f2) (RemoveChild c pw ++ [pw]) pw = .done () c1 := by
            rw [promoteLoop_fuel_le kind f1 _ _ _ (le_max_left _ _) hf1, hr]
          rw [promoteLoop_found_done kind _ c v pw c1 hs e1,
            promoteLoop_fuel_le kind f2 _ _ _ (le_max_right _ _) hf2]
          exact hf2

/-- A loop for a window that is among the children and is not a `*Popup` never completes:
the scan reaches the window itself and the unchecked `child.(*Popup)` fails. -/
theorem scan_nothing_all_popups (kind : Nat → Kind) (w base : Nat) (l : List Nat) (i : Nat)
    (h : scan kind w base i l = .nothing) : ∀ x ∈ l, ∃ p, kind x = .popup p := by
  induction l generalizing i with
  | nil => intro x hx; simp at hx
  | cons y l ih =>
    rw [scan] at h
    cases hk : kind y with
    | popup pwin =>
      rw [hk] at h
      simp only at h
      by_cases hc : pwin = w ∧ i < base
      · rw [if_pos hc] at h; simp at h
      · rw [if_neg hc] at h
        intro x hx
        rcases List.mem_cons.1 hx with e | e
        · exact ⟨pwin, by rw [e, hk]⟩
        · exact ih (i + 1) h x e
    | screen => rw [hk] at h; simp at h
    | window m => rw [hk] at h; simp at h
    | other => rw [hk] at h; simp at h

theorem promoteLoop_not_done (kind : Nat → Kind) (f : Nat) (c : List Nat) (w : Nat)
    (hw : w ∈ c) (hk : ∀ p, kind w ≠ .popup p) (c1 : List Nat) :
    promoteLoop kind f c w ≠ .done () c1 := by
  induction f generalizing c with
  | zero => simp [promoteLoop]
  | succ f ih =>
    cases hs : scan kind w (baseIndex c w) 0 c with
    | nothing =>
      obtain ⟨p, hp⟩ := scan_nothing_all_popups kind w _ c 0 hs w hw
      exact absurd hp (hk p)
    | panic => rw [promoteLoop_panic kind _ c w hs]; simp
    | found pw =>
      cases hr : promoteLoop kind f (RemoveChild c pw ++ [pw]) pw with
      | done u c2 =>
        rw [promoteLoop_found_done kind f c w pw c2 hs hr]
        obtain ⟨hanch, hmem⟩ := scan_found kind w _ pw c 0 hs
        have hpw : pw ∈ c := List.mem_of_mem_take hmem
        have hperm0 : (RemoveChild c pw ++ [pw]).Perm c :=
          (List.perm_append_singleton pw _).trans (List.perm_cons_erase hpw).symm
        obtain ⟨hp1, _⟩ := promoteLoop_done kind f _ pw c2 hr
        exact ih c2 ((hp1.trans hperm0).symm.subset hw)
      | panicked c2 =>
        rw [promoteLoop_found_stop kind f c w pw hs (by intro c3; rw [hr]; simp), hr]
        simp
      | outOfFuel =>
        rw [promoteLoop_found_stop kind f c w pw hs (by intro c3; rw [hr]; simp), hr]
        simp

theorem MoveWindowToFront_not_done (kind : Nat → Kind) (f : Nat) (c : List Nat) (w : Nat)
    (hk : ∀ p, kind w ≠ .popup p) (c1 : List Nat) :
    MoveWindowToFront kind f c w ≠ .done () c1 :=
  promoteLoop_not_done kind f _ w (by simp) hk c1

/-! ## Claims on the z-order -/

/-- C1: with the children `[other, W, P1, P2]` (`9`, `1`, `2`, `3` of `chainKind`),
`MoveWindowToFront(W)` does not end with W, P1, P2 as the last three children: after W has
been moved to the end, the scan applies the unchecked `child.(*Popup)` to the window `other`
and panics with the ordering `[other, P1, P2, W]`; no amount of fuel lets the call
complete. -/
theorem MoveWindowToFront_panics_on_window :
    MoveWindowToFront chainKind 10 [9, 1, 2, 3] 1 = .panicked [9, 2, 3, 1] ∧
    ∀ fuel c1, MoveWindowToFront chainKind fuel [9, 1, 2, 3] 1 ≠ .done () c1 := by
  refine ⟨by decide, fun fuel c1 => ?_⟩
  exact MoveWindowToFront_not_done chainKind fuel _ 1 (by intro p; simp [chainKind]) c1

theorem MoveWindowToFront_stops (kind : Nat → Kind) (hac : Acyclic kind)
    (children : List Nat) (window : Nat) :
    ∃ fuel, MoveWindowToFront kind fuel children window ≠ .outOfFuel ∧
      ∀ f, fuel ≤ f →
        MoveWindowToFront kind f children window =
          MoveWindowToFront kind fuel children window := by
  obtain ⟨fuel, hf⟩ := promoteLoop_stops kind hac _ window
    (RemoveChild children window ++ [window]) (by simp)
    (heightLE_of_acyclic kind hac window _)
  exact ⟨fuel, hf, fun f hle => promoteLoop_fuel_le kind fuel f _ window hle hf⟩

/-- C10: when the popup anchor relation is acyclic, `MoveWindowToFront(window)` stops on
every children ordering: some amount of fuel lets the run end, and any larger amount gives
the same outcome. -/
theorem MoveWindowToFront_terminates (kind : Nat → Kind) (hac : Acyclic kind)
    (children : List Nat) (window : Nat) :
    ∃ fuel, MoveWindowToFront kind fuel children window ≠ .outOfFuel ∧
      ∀ f, fuel ≤ f →
        MoveWindowToFront kind f children window =
          MoveWindowToFront kind fuel children window :=
  MoveWindowToFront_stops kind hac children window

theorem popupKind_lt (p w : Nat) (h : Relation.TransGen (Anchored popupKind) p w) :
    p < w := by
  induction h with
  | single h =>
    simp only [Anchored, popupKind, Kind.popup.injEq] at h
    omega
  | tail _ h ih =>
    simp only [Anchored, popupKind, Kind.popup.injEq] at h
    omega

theorem popupKind_acyclic : Acyclic popupKind :=
  fun p h => lt_irrefl p (popupKind_lt p p h)

/-- Witness of C10 on a chain of three popups, where the run completes with the chain in
anchor order. -/
theorem MoveWindowToFront_terminates_witness :
    Acyclic popupKind ∧
    MoveWindowToFront popupKind 3 [1, 2, 3] 3 = .done () [3, 2, 1] ∧
    ∃ fuel, MoveWindowToFront popupKind fuel [1, 2, 3] 3 ≠ .outOfFuel ∧
      ∀ f, fuel ≤ f →
        MoveWindowToFront popupKind f [1, 2, 3] 3 =
          MoveWindowToFront popupKind fuel [1, 2, 3] 3 :=
  ⟨popupKind_acyclic, by decide,
    MoveWindowToFront_terminates popupKind popupKind_acyclic [1, 2, 3] 3⟩

/-! ## Claims on the keyboard and the drag state -/

/-- C7: `charCallbackEvent` never returns: it calls itself, so no amount of fuel yields a
result, for any focus path and any codepoint. -/
theorem charCallbackEvent_never_returns (t : Tree) (fuel : Nat) (s : Screen)
    (codePoint : Nat) : charCallbackEvent t fuel s codePoint = .outOfFuel := by
  induction fuel with
  | zero => rfl
  | succ fuel ih => rw [charCallbackEvent, ih]

theorem scrollCallbackEvent_keeps_drag (t : Tree) (s : Screen) (x y : Int) :
    ∃ r s1, scrollCallbackEvent t s x y = .done r s1 ∧ s1.dragActive = s.dragActive ∧
      s1.dragWidget = s.dragWidget := by
  unfold scrollCallbackEvent
  split
  · exact ⟨_, _, rfl, rfl, rfl⟩
  · exact ⟨_, _, rfl, rfl, rfl⟩

theorem cursorPositionCallbackEvent_keeps_drag (t : Tree) (s : Screen) (x y : Int)
    (s1 : Screen) (h : (cursorPositionCallbackEvent t s x y).state? = some s1) :
    s1.dragActive = s.dragActive ∧ s1.dragWidget = s.dragWidget := by
  obtain ⟨c, fp, mo, ms, px, py, da, dw, lg⟩ := s
  cases da with
  | false =>
    simp [cursorPositionCallbackEvent, deliverDrag, Run.state?] at h
    subst h
    exact ⟨rfl, rfl⟩
  | true =>
    cases dw with
    | none =>
      simp [cursorPositionCallbackEvent, deliverDrag, Run.state?] at h
      subst h
      exact ⟨rfl, rfl⟩
    | some d =>
      cases hh : t.handles (.mouseDragEvent d (sub64 (sub64 x 1) (t.absolutePosition d).1)
          (sub64 (sub64 y 2) (t.absolutePosition d).2) (sub64 (sub64 x 1) px)
          (sub64 (sub64 y 2) py) ms mo) <;>
        simp [cursorPositionCallbackEvent, deliverDrag, Run.state?, hh] at h <;>
        subst h <;> exact ⟨rfl, rfl⟩

/-- C2: disposing of the window that is the drag target breaks the drag invariant:
`dragWidget` is reset to nil and `dragActive` stays true; the next
`cursorPositionCallbackEvent` then calls a method of the nil drag target and panics. -/
theorem DisposeWindow_breaks_dragInvariant :
    dragInvariant draggingScreen ∧
    (DisposeWindow draggingScreen 1).dragActive = true ∧
    (DisposeWindow draggingScreen 1).dragWidget = none ∧
    ¬ dragInvariant (DisposeWindow draggingScreen 1) ∧
    cursorPositionCallbackEvent exampleTree (DisposeWindow draggingScreen 1) 8 9 =
      .panicked (DisposeWindow draggingScreen 1) := by
  refine ⟨by simp [dragInvariant, draggingScreen], by decide, by decide, ?_, by decide⟩
  unfold dragInvariant
  decide

/-! ## Claims on the focus path -/

theorem focusWalk_nil (t : Tree) (fuel : Nat) (path : List Nat) (window : Option Nat) :
    focusWalk t fuel none path window = .done window path := by
  cases fuel <;> rfl

theorem notifyLost_eq (t : Tree) (l : List Nat) :
    notifyLost t l =
      (l.filter (fun w => !t.focused w)).map (fun w => Notification.focusEvent w false) := by
  induction l with
  | nil => rfl
  | cons w l ih =>
    cases h : t.focused w <;> simp [notifyLost, h, ih]

theorem UpdateFocus_nil (t : Tree) (fuel : Nat) (s : Screen) :
    UpdateFocus t fuel s none =
      .done () { s with focusPath := [], log := s.log ++ notifyLost t s.focusPath } := by
  simp [UpdateFocus, focusWalk_nil]

/-- When every entry of the focus path is focused, `UpdateFocus(nil)` empties the path and
notifies no widget at all. -/
theorem UpdateFocus_nil_all_focused (t : Tree) (fuel : Nat) (s : Screen)
    (h : ∀ w ∈ s.focusPath, t.focused w = true) :
    UpdateFocus t fuel s none = .done () { s with focusPath := [] } := by
  have hf : s.focusPath.filter (fun w => !t.focused w) = [] := by
    rw [List.filter_eq_nil_iff]
    intro w hw
    simp [h w hw]
  rw [UpdateFocus_nil, notifyLost_eq, hf]
  simp

/-- C6: `UpdateFocus(nil)` does not send `FocusEvent(false)` to the focused entries of the
focus path. The button `2` is in the focus path and focused, and receives nothing; the
only notifications go to the entries `1` and `0`, which are not focused. With the focus
path `[2]` alone, `UpdateFocus(nil)` notifies nobody. -/
theorem UpdateFocus_nil_skips_focused :
    2 ∈ exampleScreen.focusPath ∧ exampleTree.focused 2 = true ∧
    UpdateFocus exampleTree 0 exampleScreen none =
      .done () { exampleScreen with
        focusPath := []
        log := [.focusEvent 1 false, .focusEvent 0 false] } ∧
    Notification.focusEvent 2 false ∉
      [Notification.focusEvent 1 false, Notification.focusEvent 0 false] ∧
    UpdateFocus exampleTree 0 { exampleScreen with focusPath := [2] } none =
      .done () { exampleScreen with focusPath := [], log := [] } := by
  refine ⟨by decide, by decide, ?_, by decide, ?_⟩
  · rw [UpdateFocus_nil]
    decide
  · rw [UpdateFocus_nil]
    decide

/-! ## Claims on the modal rule -/

theorem modalDrop_of_modal (t : Tree) (s : Screen) (w : Nat)
    (h1 : 2 ≤ s.focusPath.length)
    (h2 : s.focusPath[s.focusPath.length - 2]? = some w)
    (h3 : t.kind w = .window true)
    (h4 : t.contains w s.mousePosX s.mousePosY = false) : modalDrop t s = true := by
  have h1' : 1 < s.focusPath.length := h1
  simp [modalDrop, h1', h2, h3, h4]

/-- C4: when the focus path has at least two entries, its second-from-last entry is a modal
`*Window` and the stored pointer position is outside that window, both
`mouseButtonCallbackEvent` and `scrollCallbackEvent` return false and leave the log of
notifications, like every field but `modifiers`, as it was. -/
theorem modal_window_blocks_events (t : Tree) (fuel : Nat) (s : Screen) (w : Nat)
    (button : Nat) (action : Action) (modifiers : Nat) (x y : Int)
    (h1 : 2 ≤ s.focusPath.length)
    (h2 : s.focusPath[s.focusPath.length - 2]? = some w)
    (h3 : t.kind w = .window true)
    (h4 : t.contains w s.mousePosX s.mousePosY = false) :
    mouseButtonCallbackEvent t fuel s button action modifiers =
      .done false { s with modifiers := modifiers } ∧
    scrollCallbackEvent t s x y = .done false s := by
  have hs := modalDrop_of_modal t s w h1 h2 h3 h4
  have hb : modalDrop t { s with modifiers := modifiers } = true :=
    modalDrop_of_modal t { s with modifiers := modifiers } w h1 h2 h3 h4
  constructor
  · simp [mouseButtonCallbackEvent, hb]
  · simp [scrollCallbackEvent, hs]

/-- Witness of C4: the focus is on the button of the modal window `1` and the pointer is at
`(50, 50)`, outside the window. -/
theorem modal_window_blocks_events_witness :
    mouseButtonCallbackEvent exampleTree 0 exampleScreen 0 .press 0 =
      .done false { exampleScreen with modifiers := 0 } ∧
    scrollCallbackEvent exampleTree exampleScreen 1 1 = .done false exampleScreen :=
  modal_window_blocks_events exampleTree 0 exampleScreen 1 0 .press 0 1 1
    (by decide) (by decide) (by decide) (by decide)

/-! ## Claims on drag capture -/

/-- C8, as amended: while a drag is active with captured widget `X`,
`cursorPositionCallbackEvent` first sends `X` one `MouseDragEvent` with position
`(px - ax, py - ay)` and delta `(px - mousePosX, py - mousePosY)`; when `X` reports the
event handled nothing else is notified, and when it does not, the same motion is also
dispatched to the tree through `MouseMotionEvent` of the screen. In both cases the stored
position becomes `(px, py)`. -/
theorem cursorPosition_during_drag (t : Tree) (s : Screen) (X : Nat) (x y : Int)
    (hd : s.dragActive = true) (hX : s.dragWidget = some X) :
    cursorPositionCallbackEvent t s x y =
      if t.handles (.mouseDragEvent X (sub64 (sub64 x 1) (t.absolutePosition X).1)
          (sub64 (sub64 y 2) (t.absolutePosition X).2) (sub64 (sub64 x 1) s.mousePosX)
          (sub64 (sub64 y 2) s.mousePosY) s.mouseState s.modifiers) then
        .done true { s with
          mousePosX := sub64 x 1
          mousePosY := sub64 y 2
          log := s.log ++ [.mouseDragEvent X (sub64 (sub64 x 1) (t.absolutePosition X).1)
            (sub64 (sub64 y 2) (t.absolutePosition X).2) (sub64 (sub64 x 1) s.mousePosX)
            (sub64 (sub64 y 2) s.mousePosY) s.mouseState s.modifiers] }
      else
        .done (t.handles (.mouseMotionEvent t.root (sub64 x 1) (sub64 y 2)
            (sub64 (sub64 x 1) s.mousePosX) (sub64 (sub64 y 2) s.mousePosY)
            s.mouseState s.modifiers))
          { s with
            mousePosX := sub64 x 1
            mousePosY := sub64 y 2
            log := s.log ++ [.mouseDragEvent X (sub64 (sub64 x 1) (t.absolutePosition X).1)
              (sub64 (sub64 y 2) (t.absolutePosition X).2) (sub64 (sub64 x 1) s.mousePosX)
              (sub64 (sub64 y 2) s.mousePosY) s.mouseState s.modifiers,
              .mouseMotionEvent t.root (sub64 x 1) (sub64 y 2)
              (sub64 (sub64 x 1) s.mousePosX) (sub64 (sub64 y 2) s.mousePosY)
              s.mouseState s.modifiers] } := by
  cases hh : t.handles (.mouseDragEvent X (sub64 (sub64 x 1) (t.absolutePosition X).1)
          (sub64 (sub64 y 2) (t.absolutePosition X).2) (sub64 (sub64 x 1) s.mousePosX)
          (sub64 (sub64 y 2) s.mousePosY) s.mouseState s.modifiers) <;>
    simp [cursorPositionCallbackEvent, deliverDrag, hd, hX, hh]

/-- Witness of C8 as amended, on the example screen while window `1` is dragged. -/
theorem cursorPosition_during_drag_witness :
    cursorPositionCallbackEvent exampleTree draggingScreen 8 9 =
      .done false { draggingScreen with
        mousePosX := 7
        mousePosY := 7
        log := [.mouseDragEvent 1 4 3 2 2 0 0, .mouseMotionEvent 0 7 7 2 2 0 0] } := by
  rw [cursorPosition_during_drag exampleTree draggingScreen 1 8 9 rfl rfl]
  decide

/-- C8, as stated, fails: window `1` is the drag target and its drag handler returns false;
the move to `(8, 9)` is then also dispatched to the tree, the log holding a
`MouseMotionEvent` of the screen `0` after the `MouseDragEvent` of `1`. -/
theorem cursorPosition_drag_not_exclusive :
    draggingScreen.dragActive = true ∧ draggingScreen.dragWidget = some 1 ∧
    cursorPositionCallbackEvent exampleTree draggingScreen 8 9 =
      .done false { draggingScreen with
        mousePosX := 7
        mousePosY := 7
        log := [.mouseDragEvent 1 4 3 2 2 0 0, .mouseMotionEvent 0 7 7 2 2 0 0] } := by
  decide

/-- C9: when the modal rule does not drop the event, a press of `MouseButton1` with hit-test
target `T` reaches the final `MouseButtonEvent` dispatch in a state `s1` where, if `T` is a
widget other than the screen, `dragActive` is true, `dragWidget` is `T` and the focus path
is empty, and, if `T` is the screen or nil, `dragActive` is false, `dragWidget` is nil and
the focus path is the one before the event. -/
theorem primary_press_sets_drag (t : Tree) (fuel : Nat) (s : Screen) (modifiers : Nat)
    (T : Option Nat)
    (hm : modalDrop t { s with modifiers := modifiers } = false)
    (hT : t.findWidget s.mousePosX s.mousePosY = T) :
    ∃ s1, mouseButtonBeforeDispatch t fuel { s with modifiers := modifiers } 0 .press
        modifiers = .done () s1 ∧
      mouseButtonCallbackEvent t fuel s 0 .press modifiers =
        dispatchMouseButton t s1 0 .press modifiers ∧
      ((∃ w, T = some w ∧ w ≠ t.root) →
        s1.dragActive = true ∧ s1.dragWidget = T ∧ s1.focusPath = []) ∧
      ((T = none ∨ T = some t.root) →
        s1.dragActive = false ∧ s1.dragWidget = none ∧ s1.focusPath = s.focusPath) := by
  subst hT
  cases hf : t.findWidget s.mousePosX s.mousePosY with
  | none =>
    refine ⟨{ s with modifiers := modifiers,
                     mouseState := updateMouseState s.mouseState 0 .press,
                     dragWidget := none, dragActive := false }, ?_, ?_, ?_, ?_⟩
    · simp [mouseButtonBeforeDispatch, synthesizeRelease, dragTarget, hf]
    · simp [mouseButtonCallbackEvent, hm, mouseButtonBeforeDispatch, synthesizeRelease,
        dragTarget, hf]
    · rintro ⟨w, hw, _⟩
      simp at hw
    · intro _
      simp
  | some w =>
    by_cases hr : w = t.root
    · refine ⟨{ s with modifiers := modifiers,
                       mouseState := updateMouseState s.mouseState 0 .press,
                       dragWidget := none, dragActive := false }, ?_, ?_, ?_, ?_⟩
      · simp [mouseButtonBeforeDispatch, synthesizeRelease, dragTarget, hf, hr]
      · simp [mouseButtonCallbackEvent, hm, mouseButtonBeforeDispatch, synthesizeRelease,
          dragTarget, hf, hr]
      · rintro ⟨w1, hw1, hne⟩
        simp only [Option.some.injEq] at hw1
        exact absurd (hw1 ▸ hr) hne
      · intro _
        simp
    · refine ⟨{ s with modifiers := modifiers,
                       mouseState := updateMouseState s.mouseState 0 .press,
                       dragWidget := some w, dragActive := true,
                       focusPath := [], log := s.log ++ notifyLost t s.focusPath },
        ?_, ?_, ?_, ?_⟩
      · simp [mouseButtonBeforeDispatch, synthesizeRelease, dragTarget, hf, hr,
          UpdateFocus_nil]
      · simp [mouseButtonCallbackEvent, hm, mouseButtonBeforeDispatch, synthesizeRelease,
          dragTarget, hf, hr, UpdateFocus_nil]
      · intro _
        simp
      · rintro (h | h)
        · simp at h
        · simp only [Option.some.injEq] at h
          exact absurd h hr

/-- Witness of C9: the pointer is over the button `2` while the plain window `3` has the
focus; the press captures `2` and empties the focus path. -/
theorem primary_press_sets_drag_witness :
    ∃ s1, mouseButtonBeforeDispatch exampleTree 0 { idleScreen with modifiers := 0 } 0
        .press 0 = .done () s1 ∧
      mouseButtonCallbackEvent exampleTree 0 idleScreen 0 .press 0 =
        dispatchMouseButton exampleTree s1 0 .press 0 ∧
      ((∃ w, some 2 = some w ∧ w ≠ exampleTree.root) →
        s1.dragActive = true ∧ s1.dragWidget = some 2 ∧ s1.focusPath = []) ∧
      ((some 2 = none ∨ some 2 = some exampleTree.root) →
        s1.dragActive = false ∧ s1.dragWidget = none ∧
          s1.focusPath = idleScreen.focusPath) :=
  primary_press_sets_drag exampleTree 0 idleScreen 0 (some 2) (by decide) (by decide)

/-! ## Claims on the button bitmask -/

theorem bit_testBit (button b : Nat) (hb : b < 64) :
    ((1 <<< button) % 2 ^ 64).testBit b = decide (button = b) := by
  rw [Nat.one_shiftLeft, Nat.testBit_mod_two_pow, Nat.testBit_two_pow]
  simp [hb]

theorem updateMouseState_testBit (ms button b : Nat) (action : Action) (hb : b < 64) :
    (updateMouseState ms button action).testBit b =
      if button = b then decide (action = .press) else ms.testBit b := by
  unfold updateMouseState
  by_cases ha : action = .press
  · rw [if_pos ha, Nat.testBit_or, bit_testBit button b hb]
    by_cases hbb : button = b <;> simp [ha, hbb]
  · rw [if_neg ha, Nat.testBit_and, Nat.testBit_xor, bit_testBit button b hb,
      Nat.testBit_two_pow_sub_one]
    by_cases hbb : button = b <;> simp [ha, hbb, hb]

theorem synthesizeRelease_cases (t : Tree) (s : Screen) (button : Nat) (action : Action)
    (modifiers : Nat) :
    (∃ l, synthesizeRelease t s button action modifiers = .done () { s with log := l }) ∨
      synthesizeRelease t s button action modifiers = .panicked s := by
  obtain ⟨c, fp, mo, ms, px, py, da, dw, lg⟩ := s
  unfold synthesizeRelease
  split
  · cases dw with
    | none => exact Or.inr rfl
    | some d =>
      cases hp : t.parent d with
      | none => exact Or.inr (by simp only [hp])
      | some p => exact Or.inl ⟨_, by simp only [hp]; rfl⟩
  · exact Or.inl ⟨lg, rfl⟩

/-- The part of `mouseButtonCallbackEvent` before the dispatch stops, by returning or by a
panic in the synthesized release, with `mouseState` updated; the drag invariant holds when
it returns, and survives a panic. -/
theorem mouseButtonBeforeDispatch_cases (t : Tree) (fuel : Nat) (s : Screen) (button : Nat)
    (action : Action) (modifiers : Nat) :
    ∃ s1, (mouseButtonBeforeDispatch t fuel s button action modifiers = .done () s1 ∨
        mouseButtonBeforeDispatch t fuel s button action modifiers = .panicked s1) ∧
      s1.mouseState = updateMouseState s.mouseState button action ∧
      (dragInvariant s → dragInvariant s1) := by
  unfold mouseButtonBeforeDispatch
  rcases synthesizeRelease_cases t
    { s with mouseState := updateMouseState s.mouseState button action } button action
    modifiers with ⟨l, h⟩ | h
  · simp only [h]
    by_cases hp : action = .press ∧ button = 0
    · rw [if_pos hp]
      cases hd : dragTarget t
          { s with mouseState := updateMouseState s.mouseState button action, log := l } with
      | none =>
        refine ⟨{ s with mouseState := updateMouseState s.mouseState button action, log := l,
                         dragWidget := none, dragActive := false }, Or.inl ?_, rfl,
          fun _ => by simp [dragInvariant]⟩
        simp
      | some w =>
        refine ⟨{ s with mouseState := updateMouseState s.mouseState button action,
                         log := l ++ notifyLost t s.focusPath, focusPath := [],
                         dragWidget := some w, dragActive := true }, Or.inl ?_, rfl,
          fun _ => by simp [dragInvariant]⟩
        simp [UpdateFocus_nil]
    · rw [if_neg hp]
      exact ⟨{ s with mouseState := updateMouseState s.mouseState button action, log := l,
                      dragActive := false, dragWidget := none }, Or.inl rfl, rfl,
        fun _ => by simp [dragInvariant]⟩
  · simp only [h]
    exact ⟨{ s with mouseState := updateMouseState s.mouseState button action }, Or.inr rfl,
      rfl, fun hi => by simpa [dragInvariant] using hi⟩

/-- Every `mouseButtonCallbackEvent` stops; its `mouseState` is the old one when the modal
rule drops the event and the updated one otherwise, and the drag invariant is kept. -/
theorem mouseButtonCallbackEvent_cases (t : Tree) (fuel : Nat) (s : Screen) (button : Nat)
    (action : Action) (modifiers : Nat) :
    ∃ s1, (mouseButtonCallbackEvent t fuel s button action modifiers).state? = some s1 ∧
      s1.mouseState =
        (if modalDrop t { s with modifiers := modifiers } then s.mouseState
         else updateMouseState s.mouseState button action) ∧
      (dragInvariant s → dragInvariant s1) := by
  unfold mouseButtonCallbackEvent
  by_cases hm : modalDrop t { s with modifiers := modifiers } = true
  · simp only [hm, if_true]
    exact ⟨_, rfl, rfl, fun hi => by simpa [dragInvariant] using hi⟩
  · simp only [hm, if_false]
    obtain ⟨s1, h, hms, hinv⟩ :=
      mouseButtonBeforeDispatch_cases t fuel { s with modifiers := modifiers } button action
        modifiers
    rcases h with h | h
    · simp only [h, dispatchMouseButton, Run.state?]
      exact ⟨_, rfl, hms, fun hi => by
        have := hinv (by simpa [dragInvariant] using hi)
        simpa [dragInvariant] using this⟩
    · simp only [h, Run.state?]
      exact ⟨_, rfl, hms, fun hi => hinv (by simpa [dragInvariant] using hi)⟩

theorem mouseStateAfter_testBit (b : Nat) (hb : b < 64) (evs : List ButtonEvent) :
    ∀ ms, (mouseStateAfter ms evs).testBit b = heldAfter b (ms.testBit b) evs := by
  induction evs with
  | nil => intro ms; rfl
  | cons e rest ih =>
    intro ms
    obtain ⟨s1, hs, hms, _⟩ := mouseButtonCallbackEvent_cases e.tree e.fuel
      { e.config with mouseState := ms } e.button e.action e.modifiers
    rw [mouseStateAfter, hs]
    simp only
    rw [ih, heldAfter, hms]
    congr 1
    by_cases hm : modalDrop e.tree { e.config with modifiers := e.modifiers } = true
    · have hm2 : modalDrop e.tree
          { e.config with mouseState := ms, modifiers := e.modifiers } = true := by
        simpa [modalDrop] using hm
      simp [hm, hm2]
    · have hm2 : ¬ modalDrop e.tree
          { e.config with mouseState := ms, modifiers := e.modifiers } = true := by
        simpa [modalDrop] using hm
      simp only [hm, hm2, if_false]
      exact updateMouseState_testBit ms e.button b e.action hb

/-- C3, as amended: starting from `mouseState = 0`, after any sequence of
`mouseButtonCallbackEvent` calls, under any configuration at each call, bit `b` of
`mouseState` (for a button below 64, the width of the mask) is set if and only if the last
event for button `b` that the modal rule did not drop was a press. -/
theorem mouseState_tracks_processed_events (b : Nat) (hb : b < 64)
    (evs : List ButtonEvent) :
    (mouseStateAfter 0 evs).testBit b = heldAfter b false evs := by
  rw [mouseStateAfter_testBit b hb evs 0]
  simp

/-- C3, as stated, fails: a press of button `0` that the modal rule drops is the last
event for that button, and bit `0` of `mouseState` stays clear. -/
theorem mouseState_misses_dropped_press :
    lastPress 0 false [droppedPress] = true ∧
    (mouseStateAfter 0 [droppedPress]).testBit 0 = false := by
  decide

/-- Witness of C3 as amended: a press that is processed sets bit `0`, and a later press that
the modal rule drops leaves it set. -/
theorem mouseState_tracks_processed_events_witness :
    heldAfter 0 false [plainPress, droppedPress] = true ∧
    (mouseStateAfter 0 [plainPress, droppedPress]).testBit 0 =
      heldAfter 0 false [plainPress, droppedPress] :=
  ⟨by decide, mouseState_tracks_processed_events 0 (by decide) [plainPress, droppedPress]⟩

/-! ## Claims on the focus path of a widget -/

/-- A walk from a widget can only return with `window` set to a `*Window`. -/
theorem focusWalk_done_window (t : Tree) (f : Nat) :
    ∀ (w : Nat) (acc : List Nat) (win r : Option Nat) (path : List Nat),
      focusWalk t f (some w) acc win = .done r path →
      ∃ win1 m, r = some win1 ∧ t.kind win1 = .window m := by
  induction f with
  | zero => intro w acc win r path h; simp [focusWalk] at h
  | succ f ih =>
    intro w acc win r path h
    rw [focusWalk] at h
    cases hk : t.kind w with
    | window m =>
      rw [hk] at h
      simp only at h
      cases hp : t.parent w with
      | none =>
        rw [hp, focusWalk_nil] at h
        injection h with h1 _
        exact ⟨w, m, h1.symm, hk⟩
      | some p =>
        rw [hp] at h
        exact ih p _ _ r path h
    | screen => rw [hk] at h; simp at h
    | popup q => rw [hk] at h; simp at h
    | other => rw [hk] at h; simp at h

/-- Calling `UpdateFocus` on a widget never returns normally: either the walk fails on an entry
that is not a `*Window`, or the promotion of the outermost window fails in its scan. -/
theorem UpdateFocus_some_not_done (t : Tree) (f : Nat) (s : Screen) (w : Nat)
    (s1 : Screen) : UpdateFocus t f s (some w) ≠ .done () s1 := by
  unfold UpdateFocus
  cases hw : focusWalk t f (some w) [] none with
  | outOfFuel => simp
  | panicked path => simp
  | done r path =>
    obtain ⟨win1, m, rfl, hk⟩ := focusWalk_done_window t f w [] none r path hw
    simp only
    cases hm : MoveWindowToFront t.kind f s.children win1 with
    | outOfFuel => simp
    | panicked c => simp
    | done u c =>
      exact absurd hm
        (MoveWindowToFront_not_done t.kind f s.children win1 (by intro q; rw [hk]; simp) c)

/-- C5: `UpdateFocus(widget)` does not leave the ancestor chain of `widget` as the focus
path. For the button `2` of the top-level window `1` the unchecked `widget.(*Window)`
fails on the button itself, and the call panics with the focus path `[2]` instead of
returning with `[2, 1]`; for the top-level window `1` the call panics on the screen `0`,
with the focus path `[1, 0]`; and for no amount of fuel does either call return. -/
theorem UpdateFocus_panics_on_widget :
    exampleTree.parent 2 = some 1 ∧ exampleTree.parent 1 = some 0 ∧
    exampleTree.parent 0 = none ∧
    UpdateFocus exampleTree 5 exampleScreen (some 2) =
      .panicked { exampleScreen with
        focusPath := [2]
        log := [.focusEvent 1 false, .focusEvent 0 false] } ∧
    UpdateFocus exampleTree 5 exampleScreen (some 1) =
      .panicked { exampleScreen with
        focusPath := [1, 0]
        log := [.focusEvent 1 false, .focusEvent 0 false] } ∧
    (∀ fuel s1, UpdateFocus exampleTree fuel exampleScreen (some 2) ≠ .done () s1) ∧
    (∀ fuel s1, UpdateFocus exampleTree fuel exampleScreen (some 1) ≠ .done () s1) :=
  ⟨by decide, by decide, by decide, by decide, by decide,
    fun fuel s1 => UpdateFocus_some_not_done exampleTree fuel exampleScreen 2 s1,
    fun fuel s1 => UpdateFocus_some_not_done exampleTree fuel exampleScreen 1 s1⟩

end Gui4go
